import Mathlib

/-!
Verification development for the RBPSig pipeline scripts.

The Python sources are shallowly embedded as pure Lean functions:
filesystem state is passed explicitly (`String → Bool` existence maps),
external tool invocations are recorded in traces, and their outcomes are
supplied by oracle functions.  Fallible code returns `Except`.
-/

namespace RBPSig

/-! ## String helpers mirroring the Python primitives -/

/-- Python `str.split(sep)` for a single-character separator, over the
character list of a string: splits at every occurrence of `c`, keeping
empty pieces (`"".split('_') == ['']`). -/
def pySplit (c : Char) : List Char → List (List Char)
  | [] => [[]]
  | a :: t =>
    let r := pySplit c t
    if a = c then [] :: r
    else (a :: r.headD []) :: r.tail

/-- Python `str.endswith(pat)`. -/
def pyEndsWith (pat s : String) : Bool := pat.data.isSuffixOf s.data

/-- Python `str.strip()`: remove whitespace from both ends. -/
def pyStrip (s : String) : String :=
  ⟨((s.data.dropWhile Char.isWhitespace).reverse.dropWhile Char.isWhitespace).reverse⟩

/-- Python `os.path.basename`: the part of the path after the last `/`. -/
def basename (s : String) : String :=
  ⟨(s.data.reverse.takeWhile (fun ch => ch != '/')).reverse⟩

/-- Accession resolution as performed in `align_reads`
(`os.path.basename(pair[0]).split('_')[0]`). -/
def resolve_accession (s : String) : String :=
  ⟨(pySplit '_' (basename s).data).headD []⟩

/-! ## Pair grouping (`for i in range(0, len(read_files), 2): pair = read_files[i:i+2]`) -/

/-- The successive two-element slices `read_files[i:i+2]` taken by the
alignment loop; an odd-length list yields a final singleton slice. -/
def groupPairs {α : Type} : List α → List (List α)
  | [] => []
  | [a] => [[a]]
  | a :: b :: t => [a, b] :: groupPairs t

/-! ## Decompression stage (`decompress_files`)

The filesystem is an existence map `String → Bool`; the outcome of each
`gzip -d` invocation is supplied by the oracle `gzipOk`.  The per-file
transition and the list of files actually passed to `gzip` are recorded. -/

inductive DStatus : Type
  | skipped        -- decompressed file already present, tool not invoked
  | decompressed   -- tool invoked and succeeded
  | failed         -- tool invoked, non-zero exit, file omitted from output
  | passthrough    -- not a .gz file, forwarded unchanged
  deriving DecidableEq, Repr

structure DecompResult : Type where
  outputs : List String
  invoked : List String
  status : List DStatus
  fs : String → Bool

/-- Shallow embedding of `decompress_files` from `alignment.py`. -/
def decompress_files (gzipOk : String → Bool) (fs : String → Bool) :
    List String → DecompResult
  | [] => ⟨[], [], [], fs⟩
  | f :: t =>
    if pyEndsWith ".gz" f then
      let d := f.dropRight 3
      if fs d then
        let r := decompress_files gzipOk fs t
        ⟨d :: r.outputs, r.invoked, .skipped :: r.status, r.fs⟩
      else if gzipOk f then
        let fs' := fun k => if k = d then true else if k = f then false else fs k
        let r := decompress_files gzipOk fs' t
        ⟨d :: r.outputs, f :: r.invoked, .decompressed :: r.status, r.fs⟩
      else
        let r := decompress_files gzipOk fs t
        ⟨r.outputs, f :: r.invoked, .failed :: r.status, r.fs⟩
    else
      let r := decompress_files gzipOk fs t
      ⟨f :: r.outputs, r.invoked, .passthrough :: r.status, r.fs⟩

/-! ## Alignment stage (`align_reads`, `find_bam_file`, `write_bam_manifest`)

Per-invocation outcomes of the external tool and of the BAM search are
supplied by oracles indexed by the position of the pair in the batch. -/

structure AlignEnv : Type where
  /-- whether the i-th STAR invocation exits zero -/
  starOk : Nat → Bool
  /-- result of `find_bam_file` on the i-th pair's output subdirectory -/
  bamFound : Nat → Option String

inductive PairStatus : Type
  | succeeded      -- tool exited zero and a BAM file was found
  | failedTool     -- CalledProcessError caught, logged, loop continues
  | failedNoBam    -- tool exited zero but no BAM file found; logged
  deriving DecidableEq, Repr

structure AlignResult : Type where
  /-- the pairs passed to STAR, in invocation order -/
  starRuns : List (List String)
  /-- manifest entries `(accession_id, bam_file_path)` collected for
  successful samples -/
  entries : List (String × String)
  /-- per-pair terminal status, in batch order -/
  statuses : List PairStatus

/-- The body of the `for i in range(0, len(read_files), 2)` loop of
`align_reads`, processing the pair slices in order; `i` is the index of
the first pair in the oracle numbering. -/
def processPairs (env : AlignEnv) : Nat → List (List String) → AlignResult
  | _, [] => ⟨[], [], []⟩
  | i, p :: t =>
    let acc := resolve_accession (p.headD "")
    let r := processPairs env (i + 1) t
    if env.starOk i then
      match env.bamFound i with
      | some bam =>
          ⟨p :: r.starRuns, (acc, bam) :: r.entries, .succeeded :: r.statuses⟩
      | none => ⟨p :: r.starRuns, r.entries, .failedNoBam :: r.statuses⟩
    else ⟨p :: r.starRuns, r.entries, .failedTool :: r.statuses⟩

/-- One tab-separated manifest row, accession then TAB then path
(the trailing newline is left implicit: one list element per line). -/
def manifestRow (e : String × String) : String := e.1 ++ "\t" ++ e.2

/-- Model of `write_bam_manifest`: the ledger file is `none` when missing; opening
in append mode creates it when missing and appends one row per entry,
never truncating existing content. -/
def write_bam_manifest (entries : List (String × String))
    (ledger : Option (List String)) : Option (List String) :=
  some (ledger.getD [] ++ entries.map manifestRow)

/-- The parameters of one `align_reads` process invocation. -/
structure RunParams : Type where
  env : AlignEnv
  gzipOk : String → Bool
  fs : String → Bool
  files : List String

/-- The pure part of `align_reads`: decompress, group into pairs, run the
per-pair loop. -/
def alignCore (p : RunParams) : AlignResult :=
  processPairs p.env 0 (groupPairs (decompress_files p.gzipOk p.fs p.files).outputs)

/-- Model of `align_reads`: the per-pair loop followed by the unconditional final
`write_bam_manifest` call. -/
def align_reads (p : RunParams) (ledger : Option (List String)) :
    AlignResult × Option (List String) :=
  (alignCore p, write_bam_manifest (alignCore p).entries ledger)

/-- The manifest ledger after a sequence of `align_reads` process
invocations, starting from a missing file. -/
def runLedger (runs : List RunParams) : Option (List String) :=
  runs.foldl (fun led p => (align_reads p led).2) none

/-! ## SRA download stage (`download_sra_files` in `sra_accessions.py`)

`prefetch` is run with `check=True` and no surrounding `try`, so a
non-zero exit raises `CalledProcessError` out of the loop.  The model
returns the raised accession in `Except.error` together with the list of
accessions for which `prefetch` was actually invoked. -/

/-- The `for sra_id in sra_numbers` prefetch loop: on the first failing
accession the exception propagates; later accessions are never attempted. -/
def prefetchLoop (ok : String → Bool) :
    List String → Except String (List String) × List String
  | [] => (.ok [], [])
  | id :: t =>
    if ok id then
      let r := prefetchLoop ok t
      (r.1.map (fun l => id :: l), id :: r.2)
    else (.error id, [id])

/-- Parsing of the accession file: skip the header line, strip each line,
keep the non-empty ones. -/
def parse_accessions (lines : List String) : List String :=
  ((lines.drop 1).map pyStrip).filter (fun s => s ≠ "")

/-- Model of `download_sra_files`: parse the accession list, then prefetch each in
turn.  First component: the Python return value (the full accession list)
or the propagated exception; second: the prefetch invocations made. -/
def download_sra_files (ok : String → Bool) (lines : List String) :
    Except String (List String) × List String :=
  prefetchLoop ok (parse_accessions lines)

/-! ## Tabular filter (`filter_data.py`)

A data-frame row is its `clusterID` key plus a valuation of the numeric
columns; the manifest's `ID → Type` dictionary is a partial map.  The
Python statement `id1, id2 = col.split('_')` raises `ValueError` when the
split does not have exactly two parts; this is modelled by `Except`. -/

structure TRow : Type where
  clusterID : String
  val : String → ℚ

structure FTable : Type where
  /-- the column names `df.columns` -/
  cols : List String
  rows : List TRow

/-- Model of `is_valid_comparison` from `filter_data.py`; `Except.error` is the
`ValueError` raised by unpacking `col.split('_')` into two names. -/
def is_valid_comparison (idToType : String → Option String) (col : String) :
    Except String Bool :=
  if decide ('_' ∈ col.data) = false then .ok false
  else
    match pySplit '_' col.data with
    | [a, b] => .ok (decide (idToType ⟨a⟩ ≠ idToType ⟨b⟩))
    | _ => .error col

/-- The list comprehension `[col for col in df.columns if
is_valid_comparison(col)]`, with exception propagation. -/
def validColumns (idToType : String → Option String) :
    List String → Except String (List String)
  | [] => .ok []
  | c :: t =>
    match is_valid_comparison idToType c with
    | .error e => .error e
    | .ok b =>
      match validColumns idToType t with
      | .error e => .error e
      | .ok r => .ok (if b then c :: r else r)

/-- The significance threshold `0.05` of `filter_data`. -/
def sigLevel : ℚ := mkRat 5 100

/-- Model of `filter_data`: select the valid comparison columns, re-insert
`clusterID` at the front, then keep the rows whose every retained
non-`clusterID` column value is `< 0.05`.  Returns the retained column
list and the retained rows. -/
def filter_data (idToType : String → Option String) (t : FTable) :
    Except String (List String × List TRow) :=
  match validColumns idToType t.cols with
  | .error e => .error e
  | .ok vc =>
    let cols' := "clusterID" :: vc
    let keep := t.rows.filter
      (fun r => (cols'.filter (fun c => c != "clusterID")).all
        (fun c => decide (r.val c < sigLevel)))
    .ok (cols', keep)

/-- Retained column list of a `filter_data` result. -/
def resultCols (r : Except String (List String × List TRow)) :
    Option (List String) :=
  match r with
  | .ok x => some x.1
  | .error _ => none

/-- The `clusterID`s of the retained rows of a `filter_data` result
(the Python return value `final_df['clusterID'].tolist()`). -/
def resultClusters (r : Except String (List String × List TRow)) :
    Option (List String) :=
  match r with
  | .ok x => some (x.2.map TRow.clusterID)
  | .error _ => none

/-- The name `decompress_files` forwards for one input file: the `.gz`
suffix is stripped, other files pass through unchanged. -/
def expectedOutput (f : String) : String :=
  if pyEndsWith ".gz" f then f.dropRight 3 else f

/-! ## Concrete sample data used by witnesses and counterexamples -/

/-- An environment in which every STAR invocation exits zero and a BAM
file is found in every sample subdirectory. -/
def envOkEx : AlignEnv := ⟨fun _ => true, fun _ => some "out.bam"⟩

/-- The group map `{A: grp1, B: grp1, C: grp2}` of the spec's tabular
filter example. -/
def mGrpEx : String → Option String := fun s =>
  if s = "A" then some "grp1"
  else if s = "B" then some "grp1"
  else if s = "C" then some "grp2"
  else none

/-- Example row with both surviving column values below the threshold. -/
def rowEx1 : TRow :=
  ⟨"r1", fun c => if c = "A_C" then mkRat 1 100
    else if c = "B_C" then mkRat 1 100 else mkRat 1 2⟩

/-- Example row with one surviving column value above the threshold. -/
def rowEx2 : TRow :=
  ⟨"r2", fun c => if c = "B_C" then mkRat 1 5 else mkRat 1 100⟩

/-- The spec's example table with columns `A_B`, `A_C`, `B_C`. -/
def tGrpEx : FTable := ⟨["clusterID", "A_B", "A_C", "B_C"], [rowEx1, rowEx2]⟩

/-- A one-run batch over one paired-end sample in which everything
succeeds. -/
def runEx : RunParams :=
  ⟨envOkEx, fun _ => true, fun _ => false, ["A_1.fastq", "A_2.fastq"]⟩

/-- A column name made of exactly two accessions joined by `_`, both of
which the manifest maps to a group label. -/
def pairColumn (m : String → Option String) (col : String) : Prop :=
  ∃ a b : String, col.data = a.data ++ '_' :: b.data ∧
    '_' ∉ a.data ∧ '_' ∉ b.data ∧ (m a).isSome = true ∧ (m b).isSome = true

/-! ## Lemmas about the string primitives -/

theorem takeWhile_append_stop {α : Type} (p : α → Bool) (c : α) (l1 l2 : List α)
    (h : p c = false) : (l1 ++ c :: l2).takeWhile p = l1.takeWhile p := by
  induction l1 with
  | nil => simp [List.takeWhile_cons, h]
  | cons a t ih =>
    by_cases ha : p a = true
    · simp [List.takeWhile_cons, ha, ih]
    · simp [List.takeWhile_cons, ha]

theorem pySplit_headD (c : Char) (l : List Char) :
    (pySplit c l).headD [] = l.takeWhile (fun x => x != c) := by
  induction l with
  | nil => rfl
  | cons a t ih =>
    by_cases hac : a = c
    · have hsplit : pySplit c (a :: t) = [] :: pySplit c t := by
        simp [pySplit, hac]
      rw [hsplit, List.takeWhile_cons_of_neg (by simp [hac])]
      rfl
    · have hsplit : pySplit c (a :: t)
          = (a :: (pySplit c t).headD []) :: (pySplit c t).tail := by
        simp [pySplit, hac]
      have hb : (a != c) = true := by simp [hac]
      rw [hsplit, List.takeWhile_cons_of_pos (p := fun x => x != c) (l := t) hb]
      show a :: (pySplit c t).headD [] = a :: List.takeWhile (fun x => x != c) t
      rw [ih]

theorem resolve_accession_data (s : String) :
    (resolve_accession s).data = (basename s).data.takeWhile (fun x => x != '_') := by
  show (pySplit '_' (basename s).data).headD [] = _
  exact pySplit_headD _ _

theorem basename_concat (d f : String) : basename (d ++ "/" ++ f) = basename f := by
  unfold basename
  have hd : (d ++ "/" ++ f).data = d.data ++ '/' :: f.data := by
    have h1 : ∀ s t : String, (s ++ t).data = s.data ++ t.data := fun _ _ => rfl
    rw [h1, h1, List.append_assoc]
    rfl
  rw [hd, List.reverse_append, List.reverse_cons, List.append_assoc]
  simp only [List.singleton_append]
  rw [takeWhile_append_stop _ _ _ _ (by rfl)]

theorem takeWhile_eq_or_stop {α : Type} (p : α → Bool) (l : List α) :
    l.takeWhile p = l ∨
      ∃ c, l[(l.takeWhile p).length]? = some c ∧ p c = false := by
  induction l with
  | nil => exact Or.inl rfl
  | cons a t ih =>
    by_cases ha : p a = true
    · rw [List.takeWhile_cons_of_pos ha]
      rcases ih with h | ⟨c, hc, hpc⟩
      · exact Or.inl (by rw [h])
      · exact Or.inr ⟨c, by simpa using hc, hpc⟩
    · rw [List.takeWhile_cons_of_neg (by simp [ha])]
      exact Or.inr ⟨a, by simp, by simpa using ha⟩

/-- C8: accession resolution is deterministic, invariant to the directory
component of the path, and returns the substring of the basename before
the first occurrence of `_` (a prefix of the basename, free of `_`, that
is either the whole basename or is immediately followed by `_`). -/
theorem claim_C8 (f d : String) :
    resolve_accession f = resolve_accession f ∧
    resolve_accession (d ++ "/" ++ f) = resolve_accession f ∧
    (∃ rest, (basename f).data = (resolve_accession f).data ++ rest) ∧
    (∀ ch ∈ (resolve_accession f).data, ch ≠ '_') ∧
    (resolve_accession f = basename f ∨
      (basename f).data[(resolve_accession f).data.length]? = some '_') := by
  refine ⟨rfl, ?_, ?_, ?_, ?_⟩
  · unfold resolve_accession
    rw [basename_concat]
  · refine ⟨(basename f).data.dropWhile (fun x => x != '_'), ?_⟩
    rw [resolve_accession_data]
    exact (List.takeWhile_append_dropWhile (p := fun x => x != '_')
      (l := (basename f).data)).symm
  · intro ch hch
    rw [resolve_accession_data] at hch
    have := List.mem_takeWhile_imp hch
    simpa using this
  · rcases takeWhile_eq_or_stop (fun x => x != '_') (basename f).data with h | ⟨c, hc, hpc⟩
    · left
      apply String.ext
      rw [resolve_accession_data, h]
    · right
      rw [resolve_accession_data]
      have hcu : c = '_' := by simpa using hpc
      rw [hcu] at hc
      exact hc

/-! ## Lemmas about pair grouping -/

theorem groupPairs_even {α : Type} :
    ∀ (n : Nat) (l : List α), l.length = 2 * n →
      (groupPairs l).length = n ∧ (∀ g ∈ groupPairs l, g.length = 2) ∧
        (groupPairs l).flatten = l := by
  intro n
  induction n with
  | zero =>
    intro l h
    match l with
    | [] => exact ⟨rfl, by simp [groupPairs], rfl⟩
    | a :: t => simp at h
  | succ n ih =>
    intro l h
    match l with
    | [] => simp at h
    | [a] => simp at h; omega
    | a :: b :: t =>
      have ht : t.length = 2 * n := by
        simp at h
        omega
      obtain ⟨h1, h2, h3⟩ := ih t ht
      refine ⟨by simp [groupPairs, h1], ?_, by simp [groupPairs, h3]⟩
      intro g hg
      simp only [groupPairs, List.mem_cons] at hg
      rcases hg with rfl | hg
      · rfl
      · exact h2 g hg

theorem groupPairs_odd {α : Type} :
    ∀ (n : Nat) (l : List α), l.length = 2 * n + 1 →
      ∃ (gs : List (List α)) (x : α),
        groupPairs l = gs ++ [[x]] ∧ gs.length = n ∧
          (∀ g ∈ gs, g.length = 2) ∧ l = gs.flatten ++ [x] := by
  intro n
  induction n with
  | zero =>
    intro l h
    match l with
    | [a] => exact ⟨[], a, rfl, rfl, by simp, rfl⟩
    | [] => simp at h
    | a :: b :: t => simp at h
  | succ n ih =>
    intro l h
    match l with
    | [] => simp at h
    | [a] => simp at h
    | a :: b :: t =>
      have ht : t.length = 2 * n + 1 := by
        simp at h
        omega
      obtain ⟨gs, x, h1, h2, h3, h4⟩ := ih t ht
      refine ⟨[a, b] :: gs, x, ?_, by simp [h2], ?_, ?_⟩
      · simp [groupPairs, h1]
      · intro g hg
        rcases List.mem_cons.mp hg with rfl | hg
        · rfl
        · exact h3 g hg
      · simp [h4]

/-! ## Lemmas about the decompression stage -/

theorem decompress_outputs_sublist (gzipOk : String → Bool) :
    ∀ (files : List String) (fs : String → Bool),
      List.Sublist (decompress_files gzipOk fs files).outputs
        (files.map expectedOutput) := by
  intro files
  induction files with
  | nil => intro fs; simp [decompress_files]
  | cons f t ih =>
    intro fs
    by_cases hgz : pyEndsWith ".gz" f = true
    · by_cases hfs : fs (f.dropRight 3) = true
      · simpa [decompress_files, hgz, hfs, expectedOutput] using
          List.Sublist.cons₂ (f.dropRight 3) (ih fs)
      · by_cases hok : gzipOk f = true
        · simpa [decompress_files, hgz, hfs, hok, expectedOutput] using
            List.Sublist.cons₂ (f.dropRight 3)
              (ih (fun k => if k = f.dropRight 3 then true
                else if k = f then false else fs k))
        · simpa [decompress_files, hgz, hfs, hok, expectedOutput] using
            List.Sublist.cons (f.dropRight 3) (ih fs)
    · simpa [decompress_files, hgz, expectedOutput] using
        List.Sublist.cons₂ f (ih fs)

/-- C4: when the expected decompressed artifact of every `.gz` input
already exists, the decompression stage invokes the external tool zero
times, marks every `.gz` input `SKIPPED`, and forwards the expected
output names in input order. -/
theorem claim_C4 (gzipOk fs : String → Bool) (files : List String)
    (h : ∀ f ∈ files, pyEndsWith ".gz" f = true → fs (f.dropRight 3) = true) :
    (decompress_files gzipOk fs files).invoked = [] ∧
    (decompress_files gzipOk fs files).outputs = files.map expectedOutput ∧
    (∀ (i : Nat) (f : String), files[i]? = some f → pyEndsWith ".gz" f = true →
      (decompress_files gzipOk fs files).status[i]? = some DStatus.skipped) := by
  induction files with
  | nil => exact ⟨rfl, rfl, by intro i f hf; simp at hf⟩
  | cons f t ih =>
    have hf : ∀ g ∈ t, pyEndsWith ".gz" g = true → fs (g.dropRight 3) = true :=
      fun g hg => h g (List.mem_cons_of_mem _ hg)
    obtain ⟨ih1, ih2, ih3⟩ := ih hf
    by_cases hgz : pyEndsWith ".gz" f = true
    · have hfs : fs (f.dropRight 3) = true := h f (List.mem_cons_self _ _) hgz
      refine ⟨?_, ?_, ?_⟩
      · simpa [decompress_files, hgz, hfs] using ih1
      · simpa [decompress_files, hgz, hfs, expectedOutput] using ih2
      · intro i g hg hggz
        cases i with
        | zero =>
          simp [decompress_files, hgz, hfs]
        | succ i =>
          simp only [List.getElem?_cons_succ] at hg
          simpa [decompress_files, hgz, hfs] using ih3 i g hg hggz
    · refine ⟨?_, ?_, ?_⟩
      · simpa [decompress_files, hgz] using ih1
      · simpa [decompress_files, hgz, expectedOutput] using ih2
      · intro i g hg hggz
        cases i with
        | zero =>
          simp only [List.getElem?_cons_zero, Option.some_inj] at hg
          subst hg
          exact absurd hggz (by simpa using hgz)
        | succ i =>
          simp only [List.getElem?_cons_succ] at hg
          simpa [decompress_files, hgz] using ih3 i g hg hggz

theorem claim_C4_witness :
    (∀ f ∈ ["x_1.fastq.gz", "y_1.fastq"], pyEndsWith ".gz" f = true →
      (fun s => s == "x_1.fastq") (f.dropRight 3) = true) ∧
    ((decompress_files (fun _ => false) (fun s => s == "x_1.fastq")
        ["x_1.fastq.gz", "y_1.fastq"]).invoked = [] ∧
      (decompress_files (fun _ => false) (fun s => s == "x_1.fastq")
        ["x_1.fastq.gz", "y_1.fastq"]).outputs
        = ["x_1.fastq.gz", "y_1.fastq"].map expectedOutput ∧
      (∀ (i : Nat) (f : String), (["x_1.fastq.gz", "y_1.fastq"] : List String)[i]? = some f →
        pyEndsWith ".gz" f = true →
        (decompress_files (fun _ => false) (fun s => s == "x_1.fastq")
          ["x_1.fastq.gz", "y_1.fastq"]).status[i]? = some DStatus.skipped)) :=
  ⟨by decide, claim_C4 _ _ _ (by decide)⟩

/-- C9: `decompress_files` returns the expected per-file outputs in
input order but with failed decompressions omitted (a sublist of the full
expected-output list); concretely, when `A_1.fastq.gz` fails to
decompress, sample `B`'s first mate is grouped with sample `A`'s second
mate by the subsequent positional pairing. -/
theorem claim_C9 :
    (∀ (gz fs : String → Bool) (files : List String),
      List.Sublist (decompress_files gz fs files).outputs
        (files.map expectedOutput)) ∧
    (decompress_files (fun f => f != "A_1.fastq.gz") (fun _ => false)
        ["A_1.fastq.gz", "A_2.fastq", "B_1.fastq", "B_2.fastq"]).outputs
      = ["A_2.fastq", "B_1.fastq", "B_2.fastq"] ∧
    groupPairs ["A_2.fastq", "B_1.fastq", "B_2.fastq"]
      = [["A_2.fastq", "B_1.fastq"], ["B_2.fastq"]] ∧
    resolve_accession "A_2.fastq" = "A" ∧
    resolve_accession "B_1.fastq" = "B" := by
  refine ⟨fun gz fs files => decompress_outputs_sublist gz files fs, ?_, rfl, rfl, rfl⟩
  rfl

/-! ## Lemmas about the per-pair alignment loop -/

theorem processPairs_starRuns (env : AlignEnv) :
    ∀ (ps : List (List String)) (i : Nat),
      (processPairs env i ps).starRuns = ps := by
  intro ps
  induction ps with
  | nil => intro i; rfl
  | cons p t ih =>
    intro i
    by_cases hs : env.starOk i = true
    · cases hb : env.bamFound i with
      | some bam => simp [processPairs, hs, hb, ih]
      | none => simp [processPairs, hs, hb, ih]
    · simp [processPairs, hs, ih]

theorem processPairs_statuses_length (env : AlignEnv) :
    ∀ (ps : List (List String)) (i : Nat),
      (processPairs env i ps).statuses.length = ps.length := by
  intro ps
  induction ps with
  | nil => intro i; rfl
  | cons p t ih =>
    intro i
    by_cases hs : env.starOk i = true
    · cases hb : env.bamFound i with
      | some bam => simp [processPairs, hs, hb, ih]
      | none => simp [processPairs, hs, hb, ih]
    · simp [processPairs, hs, ih]

theorem processPairs_entries_length (env : AlignEnv) :
    ∀ (ps : List (List String)) (i : Nat),
      (processPairs env i ps).entries.length
        = (processPairs env i ps).statuses.count PairStatus.succeeded := by
  intro ps
  induction ps with
  | nil => intro i; rfl
  | cons p t ih =>
    intro i
    by_cases hs : env.starOk i = true
    · cases hb : env.bamFound i with
      | some bam => simp [processPairs, hs, hb, ih, List.count_cons]
      | none => simp [processPairs, hs, hb, ih, List.count_cons]
    · simp [processPairs, hs, ih, List.count_cons]

theorem processPairs_append (env : AlignEnv) :
    ∀ (ps qs : List (List String)) (i : Nat),
      processPairs env i (ps ++ qs)
        = ⟨(processPairs env i ps).starRuns
              ++ (processPairs env (i + ps.length) qs).starRuns,
           (processPairs env i ps).entries
              ++ (processPairs env (i + ps.length) qs).entries,
           (processPairs env i ps).statuses
              ++ (processPairs env (i + ps.length) qs).statuses⟩ := by
  intro ps
  induction ps with
  | nil => intro qs i; simp [processPairs]
  | cons p t ih =>
    intro qs i
    have harith : i + 1 + t.length = i + (t.length + 1) := by omega
    by_cases hs : env.starOk i = true
    · cases hb : env.bamFound i with
      | some bam => simp [processPairs, hs, hb, ih, harith]
      | none => simp [processPairs, hs, hb, ih, harith]
    · simp [processPairs, hs, ih, harith]

/-! ## C3: pair grouping of the batch orchestrator -/

/-- C3 counterexample: on the odd-length input `["f_1.fastq"]` the code
raises no configuration error; the loop forms the singleton slice
`["f_1.fastq"]` and passes it to the external tool (one STAR invocation,
not zero). -/
theorem claim_C3_counterexample :
    groupPairs ["f_1.fastq"] = [["f_1.fastq"]] ∧
    (alignCore ⟨envOkEx, fun _ => true, fun _ => false, ["f_1.fastq"]⟩).starRuns
      = [["f_1.fastq"]] ∧
    (alignCore ⟨envOkEx, fun _ => true, fun _ => false, ["f_1.fastq"]⟩).starRuns.length
      = 1 := by
  refine ⟨rfl, ?_, ?_⟩ <;> rfl

/-- C3 (amended): an even-length input of length `2n` yields exactly `n`
pairs of two consecutive files preserving input order; an odd-length
input yields `n + 1` groups whose last is a singleton holding the
trailing file, no error is raised, and the external tool is invoked on
every group, the singleton included. -/
theorem claim_C3 :
    (∀ (n : Nat) (l : List String), l.length = 2 * n →
      (groupPairs l).length = n ∧ (∀ g ∈ groupPairs l, g.length = 2) ∧
        (groupPairs l).flatten = l) ∧
    (∀ (n : Nat) (l : List String), l.length = 2 * n + 1 →
      ∃ (gs : List (List String)) (x : String),
        groupPairs l = gs ++ [[x]] ∧ gs.length = n ∧
          (∀ g ∈ gs, g.length = 2) ∧ l = gs.flatten ++ [x] ∧
          (∀ (env : AlignEnv) (i : Nat),
            (processPairs env i (groupPairs l)).starRuns = groupPairs l)) := by
  refine ⟨groupPairs_even, fun n l h => ?_⟩
  obtain ⟨gs, x, h1, h2, h3, h4⟩ := groupPairs_odd n l h
  exact ⟨gs, x, h1, h2, h3, h4, fun env i => processPairs_starRuns env _ i⟩

theorem claim_C3_witness :
    ((["r1", "r2", "r3", "r4"] : List String).length = 2 * 2 ∧
      ((groupPairs (["r1", "r2", "r3", "r4"] : List String)).length = 2 ∧
        (∀ g ∈ groupPairs (["r1", "r2", "r3", "r4"] : List String), g.length = 2) ∧
        (groupPairs (["r1", "r2", "r3", "r4"] : List String)).flatten
          = ["r1", "r2", "r3", "r4"])) ∧
    ((["q1", "q2", "q3"] : List String).length = 2 * 1 + 1 ∧
      ∃ (gs : List (List String)) (x : String),
        groupPairs (["q1", "q2", "q3"] : List String) = gs ++ [[x]] ∧
          gs.length = 1 ∧ (∀ g ∈ gs, g.length = 2) ∧
          (["q1", "q2", "q3"] : List String) = gs.flatten ++ [x] ∧
          (∀ (env : AlignEnv) (i : Nat),
            (processPairs env i (groupPairs (["q1", "q2", "q3"] : List String))).starRuns
              = groupPairs (["q1", "q2", "q3"] : List String))) :=
  ⟨⟨by decide, claim_C3.1 2 _ (by decide)⟩,
   ⟨by decide, claim_C3.2 1 _ (by decide)⟩⟩

/-! ## C1: failure isolation -/

theorem prefetchLoop_abort (ok : String → Bool) :
    ∀ (pre : List String) (id : String) (post : List String),
      (∀ x ∈ pre, ok x = true) → ok id = false →
      prefetchLoop ok (pre ++ id :: post) = (Except.error id, pre ++ [id]) := by
  intro pre
  induction pre with
  | nil =>
    intro id post _ hid
    simp [prefetchLoop, hid]
  | cons a t ih =>
    intro id post hall hid
    have ha : ok a = true := hall a (List.mem_cons_self _ _)
    have ht := ih id post (fun x hx => hall x (List.mem_cons_of_mem _ hx)) hid
    simp [prefetchLoop, ha, ht, Except.map]

/-- C1 counterexample: in the SRA download stage a non-zero exit of
`prefetch` on `SRR002` propagates as an exception (the batch aborts with
`Except.error`), and `SRR003` is never attempted — the failure is *not*
confined to the per-sample boundary. -/
theorem claim_C1_counterexample :
    download_sra_files (fun s => s != "SRR002")
        ["accession", "SRR001", "SRR002", "SRR003"]
      = (Except.error "SRR002", ["SRR001", "SRR002"]) := by
  rfl

/-- C1 (amended): in the alignment stage every per-sample failure is
caught at the per-sample boundary — every pair is passed to the tool,
every pair receives a terminal status, and the final manifest write
still occurs — but in the SRA download stage a non-zero `prefetch` exit
raises out of the loop: samples after the failing one are never
attempted. -/
theorem claim_C1 :
    (∀ (p : RunParams) (led : Option (List String)),
      (align_reads p led).1.starRuns
          = groupPairs (decompress_files p.gzipOk p.fs p.files).outputs ∧
      (align_reads p led).1.statuses.length
          = (groupPairs (decompress_files p.gzipOk p.fs p.files).outputs).length ∧
      (align_reads p led).2
          = some (led.getD [] ++ (align_reads p led).1.entries.map manifestRow)) ∧
    (∀ (ok : String → Bool) (pre : List String) (id : String) (post : List String),
      (∀ x ∈ pre, ok x = true) → ok id = false →
      prefetchLoop ok (pre ++ id :: post) = (Except.error id, pre ++ [id])) := by
  refine ⟨fun p led => ⟨?_, ?_, rfl⟩, prefetchLoop_abort⟩
  · exact processPairs_starRuns p.env _ 0
  · exact processPairs_statuses_length p.env _ 0

theorem claim_C1_witness :
    (∀ x ∈ (["SRR001"] : List String), (fun s => s != "SRR002") x = true) ∧
    (fun s => s != "SRR002") "SRR002" = false ∧
    prefetchLoop (fun s => s != "SRR002") (["SRR001"] ++ "SRR002" :: ["SRR003"])
      = (Except.error "SRR002", ["SRR001"] ++ ["SRR002"]) :=
  ⟨by decide, rfl,
    claim_C1.2 (fun s => s != "SRR002") ["SRR001"] "SRR002" ["SRR003"]
      (by decide) rfl⟩

/-! ## C6: accession validation -/

/-- C6 counterexample: for the pair `["_x.fastq", "B_2.fastq"]` the
derived accession ID is empty and the two files resolve to different
IDs, yet no failure occurs: the external tool is invoked on the pair and
an entry keyed by the empty accession is even collected for the manifest. -/
theorem claim_C6_counterexample :
    resolve_accession "_x.fastq" = "" ∧
    resolve_accession "B_2.fastq" = "B" ∧
    (processPairs envOkEx 0 (groupPairs ["_x.fastq", "B_2.fastq"])).starRuns
      = [["_x.fastq", "B_2.fastq"]] ∧
    (processPairs envOkEx 0 (groupPairs ["_x.fastq", "B_2.fastq"])).entries
      = [("", "out.bam")] := by
  refine ⟨rfl, rfl, rfl, rfl⟩

/-- C6 (amended): accession resolution in `align_reads` performs no
validation at all: the ID is the prefix of the first file's basename
before the first `_`, and every pair — including pairs with an empty
derived ID or mismatched per-file IDs — is passed to the external tool;
no `MalformedIdentifier` code path exists. -/
theorem claim_C6 (env : AlignEnv) (i : Nat) (ps : List (List String)) :
    (processPairs env i ps).starRuns = ps ∧
    (processPairs env i ps).statuses.length = ps.length :=
  ⟨processPairs_starRuns env ps i, processPairs_statuses_length env ps i⟩

/-! ## C7: tool success without output artifact -/

/-- C7: when the i-th STAR invocation exits zero but `find_bam_file`
finds no BAM file, the sample's terminal status is `failedNoBam` (the
failure is logged) and the collected manifest entries are exactly those
of the other pairs — no entry for the failing sample is appended. -/
theorem claim_C7 (env : AlignEnv) (pre post : List (List String)) (p : List String)
    (hok : env.starOk pre.length = true) (hbam : env.bamFound pre.length = none) :
    (processPairs env 0 (pre ++ p :: post)).statuses[pre.length]?
        = some PairStatus.failedNoBam ∧
    (processPairs env 0 (pre ++ p :: post)).entries
        = (processPairs env 0 pre).entries
            ++ (processPairs env (pre.length + 1) post).entries := by
  have happ := processPairs_append env pre (p :: post) 0
  have hhead : processPairs env (0 + pre.length) (p :: post)
      = ⟨p :: (processPairs env (pre.length + 1) post).starRuns,
         (processPairs env (pre.length + 1) post).entries,
         PairStatus.failedNoBam :: (processPairs env (pre.length + 1) post).statuses⟩ := by
    have h0 : (0 : Nat) + pre.length = pre.length := by omega
    rw [h0]
    simp [processPairs, hok, hbam]
  constructor
  · rw [happ]
    show ((processPairs env 0 pre).statuses
        ++ (processPairs env (0 + pre.length) (p :: post)).statuses)[pre.length]? = _
    rw [List.getElem?_append_right
      (by rw [processPairs_statuses_length])]
    rw [processPairs_statuses_length, hhead]
    simp
  · rw [happ]
    show (processPairs env 0 pre).entries
        ++ (processPairs env (0 + pre.length) (p :: post)).entries = _
    rw [hhead]

theorem claim_C7_witness :
    (AlignEnv.mk (fun _ => true) (fun _ => none)).starOk
        ([] : List (List String)).length = true ∧
    (AlignEnv.mk (fun _ => true) (fun _ => none)).bamFound
        ([] : List (List String)).length = none ∧
    ((processPairs (AlignEnv.mk (fun _ => true) (fun _ => none)) 0
        ([] ++ ["A_1.fastq", "A_2.fastq"] :: [])).statuses[([] : List (List String)).length]?
        = some PairStatus.failedNoBam ∧
      (processPairs (AlignEnv.mk (fun _ => true) (fun _ => none)) 0
        ([] ++ ["A_1.fastq", "A_2.fastq"] :: [])).entries
        = (processPairs (AlignEnv.mk (fun _ => true) (fun _ => none)) 0 []).entries
            ++ (processPairs (AlignEnv.mk (fun _ => true) (fun _ => none))
                (([] : List (List String)).length + 1) []).entries) :=
  ⟨rfl, rfl, claim_C7 (AlignEnv.mk (fun _ => true) (fun _ => none))
    [] [] ["A_1.fastq", "A_2.fastq"] rfl rfl⟩

/-! ## C2: monotone manifest accumulation -/

theorem write_runs_foldl (runs : List RunParams) :
    ∀ (l : List String),
      runs.foldl (fun led p => (align_reads p led).2) (some l)
        = some (l ++ (runs.map
            (fun p => (alignCore p).entries.map manifestRow)).flatten) := by
  induction runs with
  | nil => intro l; simp
  | cons r t ih =>
    intro l
    rw [List.foldl_cons]
    have hstep : (align_reads r (some l)).2
        = some (l ++ (alignCore r).entries.map manifestRow) := rfl
    rw [hstep, ih]
    simp

/-- C2: across any non-empty sequence of process invocations the ledger
is created on first write and afterwards holds exactly the rows of the
successful samples of every run — one tab-separated row per success,
none lost, none added for samples that did not succeed — and each append
only extends the previous content. -/
theorem claim_C2 (runs : List RunParams) (hne : runs ≠ []) :
    runLedger runs
      = some ((runs.map (fun p => (alignCore p).entries.map manifestRow)).flatten) ∧
    ((runs.map (fun p => (alignCore p).entries.map manifestRow)).flatten).length
      = (runs.map (fun p => (alignCore p).statuses.count PairStatus.succeeded)).sum ∧
    (∀ (entries : List (String × String)) (led : Option (List String)),
      write_bam_manifest entries led = some (led.getD [] ++ entries.map manifestRow)) := by
  refine ⟨?_, ?_, fun entries led => rfl⟩
  · match runs, hne with
    | r :: t, _ =>
      show (r :: t).foldl (fun led p => (align_reads p led).2) none = _
      rw [List.foldl_cons]
      have hstep : (align_reads r none).2
          = some ([] ++ (alignCore r).entries.map manifestRow) := rfl
      rw [hstep, write_runs_foldl]
      simp
  · rw [List.length_flatten, List.map_map]
    refine congrArg List.sum (List.map_congr_left fun p hp => ?_)
    show ((alignCore p).entries.map manifestRow).length = _
    rw [List.length_map]
    exact processPairs_entries_length p.env _ 0

theorem claim_C2_witness :
    ([runEx] : List RunParams) ≠ [] ∧
    (runLedger [runEx]
        = some (([runEx].map
            (fun p => (alignCore p).entries.map manifestRow)).flatten) ∧
      (([runEx].map (fun p => (alignCore p).entries.map manifestRow)).flatten).length
        = ([runEx].map
            (fun p => (alignCore p).statuses.count PairStatus.succeeded)).sum ∧
      (∀ (entries : List (String × String)) (led : Option (List String)),
        write_bam_manifest entries led
          = some (led.getD [] ++ entries.map manifestRow))) :=
  ⟨List.cons_ne_nil _ _, claim_C2 [runEx] (List.cons_ne_nil _ _)⟩

/-! ## Lemmas about the tabular filter -/

theorem pySplit_no_occ (c : Char) :
    ∀ (l : List Char), c ∉ l → pySplit c l = [l] := by
  intro l
  induction l with
  | nil => intro _; rfl
  | cons a t ih =>
    intro h
    have hac : ¬ a = c := by
      rintro rfl
      exact h (List.mem_cons_self _ _)
    have ht : c ∉ t := fun hm => h (List.mem_cons_of_mem _ hm)
    simp [pySplit, hac, ih ht]

theorem pySplit_append_cons (c : Char) :
    ∀ (a b : List Char), c ∉ a → pySplit c (a ++ c :: b) = a :: pySplit c b := by
  intro a
  induction a with
  | nil => intro b _; simp [pySplit]
  | cons x t ih =>
    intro b h
    have hx : ¬ x = c := by
      rintro rfl
      exact h (List.mem_cons_self _ _)
    have ht : c ∉ t := fun hm => h (List.mem_cons_of_mem _ hm)
    simp [pySplit, hx, ih b ht]

theorem is_valid_comparison_pair (m : String → Option String) (col : String)
    (x y : List Char) (hcol : col.data = x ++ '_' :: y)
    (hx : '_' ∉ x) (hy : '_' ∉ y) :
    is_valid_comparison m col = .ok (decide (m ⟨x⟩ ≠ m ⟨y⟩)) := by
  have hmem : '_' ∈ col.data := by
    rw [hcol]
    exact List.mem_append_right _ (List.mem_cons_self _ _)
  unfold is_valid_comparison
  rw [hcol, pySplit_append_cons _ _ _ hx, pySplit_no_occ _ _ hy]
  simp [hmem]

theorem is_valid_comparison_true_mem (m : String → Option String) (col : String)
    (h : is_valid_comparison m col = .ok true) : '_' ∈ col.data := by
  by_contra hmem
  unfold is_valid_comparison at h
  rw [if_pos (by simpa using hmem)] at h
  exact Bool.false_ne_true (Except.ok.inj h)

theorem count_one_decomp (c : Char) :
    ∀ (l : List Char), l.count c = 1 →
      ∃ x y, l = x ++ c :: y ∧ c ∉ x ∧ c ∉ y := by
  intro l
  induction l with
  | nil => intro h; simp at h
  | cons a t ih =>
    intro h
    by_cases hac : a = c
    · subst hac
      have ht : t.count a = 0 := by
        have := h
        simp [List.count_cons] at this
        omega
      exact ⟨[], t, rfl, by simp, by simpa using List.count_eq_zero.mp ht⟩
    · have ht : t.count c = 1 := by
        simpa [List.count_cons, hac, bne] using h
      obtain ⟨x, y, h1, h2, h3⟩ := ih ht
      refine ⟨a :: x, y, by simp [h1], ?_, h3⟩
      intro hm
      rcases List.mem_cons.mp hm with rfl | hm
      · exact hac rfl
      · exact h2 hm

theorem validColumns_ok_mem (m : String → Option String) :
    ∀ (cols vc : List String), validColumns m cols = .ok vc →
      ∀ c, c ∈ vc ↔ c ∈ cols ∧ is_valid_comparison m c = .ok true := by
  intro cols
  induction cols with
  | nil =>
    intro vc h c
    simp only [validColumns] at h
    cases h
    simp
  | cons x t ih =>
    intro vc h c
    simp only [validColumns] at h
    cases hvx : is_valid_comparison m x with
    | error e => rw [hvx] at h; cases h
    | ok b =>
      rw [hvx] at h
      cases hvt : validColumns m t with
      | error e => rw [hvt] at h; cases h
      | ok r =>
        rw [hvt] at h
        cases h
        have hr := ih r hvt c
        cases b with
        | true =>
          rw [if_pos rfl]
          constructor
          · intro hcr
            rcases List.mem_cons.mp hcr with heq | hcr'
            · subst heq
              exact ⟨List.mem_cons_self _ _, hvx⟩
            · exact ⟨List.mem_cons_of_mem _ (hr.mp hcr').1, (hr.mp hcr').2⟩
          · intro hc
            rcases List.mem_cons.mp hc.1 with heq | hc1
            · subst heq
              exact List.mem_cons_self _ _
            · exact List.mem_cons_of_mem _ (hr.mpr ⟨hc1, hc.2⟩)
        | false =>
          rw [if_neg (by simp)]
          constructor
          · intro hcr
            exact ⟨List.mem_cons_of_mem _ (hr.mp hcr).1, (hr.mp hcr).2⟩
          · intro hc
            rcases List.mem_cons.mp hc.1 with heq | hc1
            · subst heq
              rw [hc.2] at hvx
              exact Bool.noConfusion (Except.ok.inj hvx)
            · exact hr.mpr ⟨hc1, hc.2⟩

theorem validColumns_ok_of (m : String → Option String) :
    ∀ (cols : List String),
      (∀ c ∈ cols, ∃ b, is_valid_comparison m c = .ok b) →
      ∃ vc, validColumns m cols = .ok vc := by
  intro cols
  induction cols with
  | nil => intro _; exact ⟨[], rfl⟩
  | cons x t ih =>
    intro h
    obtain ⟨b, hb⟩ := h x (List.mem_cons_self _ _)
    obtain ⟨r, hr⟩ := ih (fun c hc => h c (List.mem_cons_of_mem _ hc))
    refine ⟨if b then x :: r else r, ?_⟩
    simp only [validColumns]
    rw [hb, hr]

/-- C10: the column-validity check of the tabular filter is total for
column names with at most one `_` (it returns a verdict), and a column
name with two or more `_` characters makes the two-name unpacking of
`col.split('_')` raise, aborting `filter_data` with an exception instead
of a filtered table. -/
theorem claim_C10 :
    (∀ (m : String → Option String) (col : String),
      col.data.count '_' ≤ 1 → ∃ b, is_valid_comparison m col = .ok b) ∧
    is_valid_comparison (fun _ => none) "A_B_C" = .error "A_B_C" ∧
    filter_data (fun _ => none) ⟨["A_B_C"], []⟩ = .error "A_B_C" := by
  refine ⟨?_, rfl, rfl⟩
  intro m col h
  rcases Nat.le_one_iff_eq_zero_or_eq_one.mp h with h0 | h1
  · refine ⟨false, ?_⟩
    have hmem : '_' ∉ col.data := List.count_eq_zero.mp h0
    unfold is_valid_comparison
    rw [if_pos (by simpa using hmem)]
  · obtain ⟨x, y, hxy, hx, hy⟩ := count_one_decomp '_' col.data h1
    exact ⟨_, is_valid_comparison_pair m col x y hxy hx hy⟩

theorem claim_C10_witness :
    ("A_B".data.count '_' ≤ 1) ∧
    (∃ b, is_valid_comparison mGrpEx "A_B" = .ok b) :=
  ⟨by decide, claim_C10.1 mGrpEx "A_B" (by decide)⟩

/-- C5: over a table whose non-key columns are pairs of manifest-mapped
accessions joined by `_`, `filter_data` keeps `clusterID` plus exactly
the columns whose two accessions are mapped to different groups, then
keeps exactly the rows whose every retained column value is `< 0.05`;
in the spec's example (`A_B`, `A_C`, `B_C` with `{A: grp1, B: grp1,
C: grp2}`) only `A_C` and `B_C` survive and only row `r1` is retained. -/
theorem claim_C5 (m : String → Option String) (t : FTable)
    (H : ∀ col ∈ t.cols, col ≠ "clusterID" → pairColumn m col) :
    ∃ vc keep,
      filter_data m t = .ok ("clusterID" :: vc, keep) ∧
      (∀ (col a b : String), col ∈ t.cols →
        col.data = a.data ++ '_' :: b.data → '_' ∉ a.data → '_' ∉ b.data →
        (col ∈ vc ↔ m a ≠ m b)) ∧
      (∀ r, r ∈ keep ↔ r ∈ t.rows ∧ ∀ col ∈ vc, r.val col < sigLevel) ∧
      resultCols (filter_data mGrpEx tGrpEx) = some ["clusterID", "A_C", "B_C"] ∧
      resultClusters (filter_data mGrpEx tGrpEx) = some ["r1"] := by
  have hok : ∀ c ∈ t.cols, ∃ b, is_valid_comparison m c = .ok b := by
    intro c hc
    by_cases hck : c = "clusterID"
    · subst hck
      refine ⟨false, ?_⟩
      unfold is_valid_comparison
      rw [if_pos (by decide)]
    · obtain ⟨a, b, h1, h2, h3, _, _⟩ := H c hc hck
      exact ⟨_, is_valid_comparison_pair m c a.data b.data h1 h2 h3⟩
  obtain ⟨vc, hvc⟩ := validColumns_ok_of m t.cols hok
  have hvcne : ∀ c ∈ vc, (c != "clusterID") = true := by
    intro c hc
    have h2 := ((validColumns_ok_mem m t.cols vc hvc c).mp hc).2
    have hmem := is_valid_comparison_true_mem m c h2
    have hne : c ≠ "clusterID" := by
      rintro rfl
      revert hmem
      decide
    simpa using hne
  have hfilter : ("clusterID" :: vc).filter (fun c => c != "clusterID") = vc := by
    rw [List.filter_cons, if_neg (by simp)]
    exact List.filter_eq_self.mpr hvcne
  refine ⟨vc,
    t.rows.filter (fun r =>
      ((("clusterID" :: vc).filter (fun c => c != "clusterID")).all
        (fun c => decide (r.val c < sigLevel)))), ?_, ?_, ?_, by decide, by decide⟩
  · unfold filter_data
    rw [hvc]
  · intro col a b hcolmem hdecomp ha hb
    have hval : is_valid_comparison m col = .ok (decide (m a ≠ m b)) :=
      is_valid_comparison_pair m col a.data b.data hdecomp ha hb
    rw [validColumns_ok_mem m t.cols vc hvc col]
    constructor
    · intro hp
      have h2 := hp.2
      rw [hval] at h2
      exact of_decide_eq_true (Except.ok.inj h2)
    · intro hne
      refine ⟨hcolmem, ?_⟩
      rw [hval, decide_eq_true hne]
  · intro r
    rw [List.mem_filter, hfilter, List.all_eq_true]
    constructor
    · intro hp
      exact ⟨hp.1, fun col hcol => of_decide_eq_true (hp.2 col hcol)⟩
    · intro hp
      exact ⟨hp.1, fun col hcol => decide_eq_true (hp.2 col hcol)⟩

theorem claim_C5_witness :
    (∀ col ∈ tGrpEx.cols, col ≠ "clusterID" → pairColumn mGrpEx col) ∧
    (∃ vc keep,
      filter_data mGrpEx tGrpEx = .ok ("clusterID" :: vc, keep) ∧
      (∀ (col a b : String), col ∈ tGrpEx.cols →
        col.data = a.data ++ '_' :: b.data → '_' ∉ a.data → '_' ∉ b.data →
        (col ∈ vc ↔ mGrpEx a ≠ mGrpEx b)) ∧
      (∀ r, r ∈ keep ↔ r ∈ tGrpEx.rows ∧ ∀ col ∈ vc, r.val col < sigLevel) ∧
      resultCols (filter_data mGrpEx tGrpEx) = some ["clusterID", "A_C", "B_C"] ∧
      resultClusters (filter_data mGrpEx tGrpEx) = some ["r1"]) := by
  have hH : ∀ col ∈ tGrpEx.cols, col ≠ "clusterID" → pairColumn mGrpEx col := by
    intro col hc hne
    simp only [tGrpEx] at hc
    simp only [List.mem_cons, List.not_mem_nil, or_false] at hc
    rcases hc with rfl | rfl | rfl | rfl
    · exact absurd rfl hne
    · exact ⟨"A", "B", rfl, by decide, by decide, rfl, rfl⟩
    · exact ⟨"A", "C", rfl, by decide, by decide, rfl, rfl⟩
    · exact ⟨"B", "C", rfl, by decide, by decide, rfl, rfl⟩
  exact ⟨hH, claim_C5 mGrpEx tGrpEx hH⟩

end RBPSig
